import Mathlib

/-!
Verification of the Previewz client-side data store and vault security layer.

The embedding models the zustand media store (`use-media-store.ts`, full variant
with bulk import and overwrite), the vault store, and the Web-Crypto helpers
(`crypto.ts`).  JavaScript strings are modelled as `List Char`; the asynchronous
IndexedDB transactions are modelled by an explicit database state plus boolean
oracles for environmental transaction success (`txOk`) and reload success
(`reloadOk`); the key constraint of IndexedDB `add` (failing on an existing key)
is modelled directly.  `Date.now()` and `Math.random()`-based id generation are
passed in as explicit parameters.  PBKDF2 derivation is an abstract function
parameter; the base64 transport of salt and hash in `VaultConfig` is modelled by
storing the decoded byte lists directly.
-/

namespace Previewz

/-- JavaScript strings, modelled as their sequence of characters. -/
abbrev Str := List Char

/-- Convert a Lean string literal to the model's string type. -/
def str (s : String) : Str := s.data

/-- ASCII lower-casing of one character, as `String.prototype.toLowerCase`
acts on the ASCII range (the URLs and keywords involved are ASCII). -/
def lowerChar (c : Char) : Char :=
  if 65 ≤ c.toNat ∧ c.toNat ≤ 90 then Char.ofNat (c.toNat + 32) else c

/-- `url.toLowerCase()`. -/
def toLowerStr (s : Str) : Str := s.map lowerChar

/-- `s.startsWith(pat)`. -/
def startsWithStr : Str → Str → Bool
  | _, [] => true
  | [], _ :: _ => false
  | a :: s, b :: p => a == b && startsWithStr s p

/-- `s.endsWith(pat)`. -/
def endsWithStr (s pat : Str) : Bool := startsWithStr s.reverse pat.reverse

/-- `s.includes(pat)`. -/
def containsStr : Str → Str → Bool
  | [], pat => pat.isEmpty
  | c :: rest, pat => startsWithStr (c :: rest) pat || containsStr rest pat

/-- Whitespace test used by `String.prototype.trim` (ASCII fragment). -/
def isWsChar (c : Char) : Bool := c == ' ' || c == '\t' || c == '\n' || c == '\r'

/-- `s.trim()`. -/
def trimStr (s : Str) : Str := ((s.dropWhile isWsChar).reverse.dropWhile isWsChar).reverse

/-- First branch of `detectFormat`: image extensions and markers. -/
def isImageUrl (u : Str) : Bool :=
  endsWithStr u (str ".jpg") || endsWithStr u (str ".jpeg") || endsWithStr u (str ".png") ||
  endsWithStr u (str ".gif") || endsWithStr u (str ".webp") || endsWithStr u (str ".svg") ||
  endsWithStr u (str ".bmp") || containsStr u (str "image") ||
  containsStr u (str "format=webp") || containsStr u (str "format=png")

/-- Second branch of `detectFormat`: video extensions and hosting domains. -/
def isVideoUrl (u : Str) : Bool :=
  endsWithStr u (str ".mp4") || endsWithStr u (str ".webm") || endsWithStr u (str ".mov") ||
  endsWithStr u (str ".avi") || containsStr u (str "youtube.com") ||
  containsStr u (str "youtu.be") || containsStr u (str "vimeo.com") ||
  containsStr u (str "video")

/-- Third branch of `detectFormat`: pdf extension or substring. -/
def isDocumentUrl (u : Str) : Bool := endsWithStr u (str ".pdf") || containsStr u (str "pdf")

/-- Fourth branch of `detectFormat`: http(s) scheme. -/
def isWebsiteUrl (u : Str) : Bool :=
  startsWithStr u (str "http://") || startsWithStr u (str "https://")

/-- `detectFormat(url, type)` from `use-media-store.ts`.  The `ty` hint is
accepted and ignored, exactly as in the source. -/
def detectFormat (url _ty : Str) : Str :=
  let u := toLowerStr url
  if isImageUrl u then str "image"
  else if isVideoUrl u then str "video"
  else if isDocumentUrl u then str "document"
  else if isWebsiteUrl u then str "website"
  else str "other"

/-- A stored media record (interface `MediaItem`). -/
structure MediaItem where
  id : Str
  url : Str
  type : Str
  format : Str
  name : Str
  tags : List Str
  thumbnail : Option Str
  createdAt : Nat
  isHidden : Option Bool
deriving DecidableEq

/-- Boolean string order modelling the default (code-unit) comparison used by
`Array.prototype.sort()` on strings. -/
def strLeB : Str → Str → Bool
  | [], _ => true
  | _ :: _, [] => false
  | a :: s, b :: t => if a == b then strLeB s t else decide (a.toNat ≤ b.toNat)

/-- Insertion into a string-sorted list. -/
def insertStr (a : Str) : List Str → List Str
  | [] => [a]
  | b :: l => if strLeB a b then a :: b :: l else b :: insertStr a l

/-- `.sort()` on a deduplicated list of strings. -/
def sortStrs : List Str → List Str
  | [] => []
  | a :: l => insertStr a (sortStrs l)

/-- `allTags` computation of `computeDerived`: every tag of every public
record, first occurrences kept (JS `Set` insertion order), then sorted. -/
def computeAllTags (items : List MediaItem) : List Str :=
  sortStrs ((items.map (fun i => i.tags)).flatten.eraseDups)

/-- `allFormats` computation of `computeDerived`. -/
def computeAllFormats (items : List MediaItem) : List Str :=
  sortStrs ((items.map (fun i => i.format)).eraseDups)

/-- Descending `createdAt` order: the comparator `(a, b) => b.createdAt - a.createdAt`. -/
def newerFirst (a b : MediaItem) : Prop := b.createdAt ≤ a.createdAt

instance : DecidableRel newerFirst := fun a b => Nat.decLe b.createdAt a.createdAt

instance : IsTotal MediaItem newerFirst := ⟨fun a b => Nat.le_total b.createdAt a.createdAt⟩

instance : IsTrans MediaItem newerFirst := ⟨fun _ _ _ hab hbc => Nat.le_trans hbc hab⟩

/-- `.sort((a, b) => b.createdAt - a.createdAt)`. -/
def sortItems (l : List MediaItem) : List MediaItem := List.insertionSort newerFirst l

/-- The in-memory zustand state of the media store (`isLoading` omitted as no
claim concerns it). -/
structure MemState where
  items : List MediaItem
  hiddenItems : List MediaItem
  hiddenTags : List Str
  allTags : List Str
  allFormats : List Str
deriving DecidableEq

/-- The IndexedDB state: the `media` (public) and `hidden` object stores,
both keyed by `id`; list order models enumeration order. -/
structure DB where
  media : List MediaItem
  hidden : List MediaItem
deriving DecidableEq

/-- Memory, database and the `hiddenTags` localStorage slot together. -/
structure World where
  mem : MemState
  db : DB
  ls : Option (List Str)
deriving DecidableEq

/-- Whether an object store already holds the key. -/
def hasKey (store : List MediaItem) (id : Str) : Bool := store.any (fun i => i.id == id)

/-- IndexedDB `store.add`: fails (aborting the transaction) if the key exists. -/
def storeAdd (store : List MediaItem) (item : MediaItem) : Option (List MediaItem) :=
  if hasKey store item.id then none else some (store ++ [item])

/-- Several `store.add` calls inside one transaction. -/
def storeAddAll (store : List MediaItem) : List MediaItem → Option (List MediaItem)
  | [] => some store
  | i :: rest =>
    match storeAdd store i with
    | none => none
    | some s => storeAddAll s rest

/-- IndexedDB `store.delete` (never fails on a missing key). -/
def storeDelete (store : List MediaItem) (id : Str) : List MediaItem :=
  store.filter (fun i => i.id != id)

/-- IndexedDB `store.put`: upsert by key. -/
def storePut (store : List MediaItem) (item : MediaItem) : List MediaItem :=
  if hasKey store item.id then store.map (fun i => if i.id == item.id then item else i)
  else store ++ [item]

/-- The recurring `set({ items, ...computeDerived(items) })` pattern: replace
the public items and recompute both derived indexes from them. -/
def setItems (m : MemState) (l : List MediaItem) : MemState :=
  { m with items := l, allTags := computeAllTags l, allFormats := computeAllFormats l }

/-- `loadFromDB` followed by the reconciliation `set`: both partitions read
back sorted by `createdAt` descending, `hiddenTags` from localStorage, derived
indexes recomputed from the public items. -/
def loadMem (db : DB) (ls : Option (List Str)) : MemState :=
  let items := sortItems db.media
  { items := items
    hiddenItems := sortItems db.hidden
    hiddenTags := ls.getD []
    allTags := computeAllTags items
    allFormats := computeAllFormats items }

/-- The state used after a failed transaction: reload from storage when the
reload itself succeeds, otherwise the optimistic state is kept (the reload
rejection is swallowed by `.catch(() => {})`). -/
def reconcile (w : World) (reloadOk : Bool) (optimistic : MemState) : MemState :=
  if reloadOk then loadMem w.db w.ls else optimistic

/-- `Date.now().toString()`. -/
def natToStr (n : Nat) : Str := (Nat.repr n).data

/-- Argument of `addItem` / `addHiddenItem`: a record without `id`,
`createdAt` and `format`. -/
structure NewDraft where
  url : Str
  type : Str
  name : Str
  tags : List Str
  thumbnail : Option Str
  isHidden : Option Bool
deriving DecidableEq

/-- The record built by `addItem`: spread of the draft plus computed
`format`, generated `id` and `createdAt`. -/
def draftToItem (now : Nat) (d : NewDraft) : MediaItem :=
  { id := natToStr now
    url := d.url
    type := d.type
    format := detectFormat d.url d.type
    name := d.name
    tags := d.tags
    thumbnail := d.thumbnail
    createdAt := now
    isHidden := d.isHidden }

/-- `addItem`: optimistic prepend to the public list, derived indexes
recomputed, one `add` transaction; on failure the optimistic record is
removed by its id and the error is re-thrown (second component `false`). -/
def addItem (now : Nat) (txOk : Bool) (d : NewDraft) (w : World) : World × Bool :=
  let newItem := draftToItem now d
  let optimistic := newItem :: w.mem.items
  match (if txOk then storeAdd w.db.media newItem else none) with
  | some media1 =>
    ({ w with mem := setItems w.mem optimistic, db := { w.db with media := media1 } }, true)
  | none =>
    let rolledBack := optimistic.filter (fun i => i.id != newItem.id)
    ({ w with mem := setItems w.mem rolledBack }, false)

/-- `addHiddenItem`: same as `addItem` but targeting the hidden partition,
forcing `isHidden = true`, and not touching the derived indexes. -/
def addHiddenItem (now : Nat) (txOk : Bool) (d : NewDraft) (w : World) : World × Bool :=
  let newItem := { draftToItem now d with isHidden := some true }
  let optimistic := newItem :: w.mem.hiddenItems
  let memAdd := { w.mem with hiddenItems := optimistic }
  let memRolledBack :=
    { w.mem with hiddenItems := optimistic.filter (fun i => i.id != newItem.id) }
  match (if txOk then storeAdd w.db.hidden newItem else none) with
  | some hidden1 =>
    ({ w with mem := memAdd, db := { w.db with hidden := hidden1 } }, true)
  | none =>
    ({ w with mem := memRolledBack }, false)

/-- `deleteItem`: optimistic filter, `delete` transaction; on failure a full
reload from storage. -/
def deleteItem (txOk reloadOk : Bool) (id : Str) (w : World) : World × Bool :=
  let updated := w.mem.items.filter (fun i => i.id != id)
  let mem1 := setItems w.mem updated
  if txOk then
    ({ w with mem := mem1, db := { w.db with media := storeDelete w.db.media id } }, true)
  else
    ({ w with mem := reconcile w reloadOk mem1 }, false)

/-- Argument of `updateItem`: `Partial` of the record without `id` and
`createdAt`; `none` marks an absent key. -/
structure ItemUpdates where
  url : Option Str
  type : Option Str
  format : Option Str
  name : Option Str
  tags : Option (List Str)
  thumbnail : Option (Option Str)
  isHidden : Option (Option Bool)
deriving DecidableEq

/-- The spread merge `{ ...target, ...updates }`. -/
def applyUpdates (u : ItemUpdates) (i : MediaItem) : MediaItem :=
  { i with
    url := u.url.getD i.url
    type := u.type.getD i.type
    format := u.format.getD i.format
    name := u.name.getD i.name
    tags := u.tags.getD i.tags
    thumbnail := u.thumbnail.getD i.thumbnail
    isHidden := u.isHidden.getD i.isHidden }

/-- `updateItem`: no-op when the id is not found; otherwise merge, optimistic
replace, `put` transaction, reload on failure. -/
def updateItem (txOk reloadOk : Bool) (id : Str) (u : ItemUpdates) (w : World) : World × Bool :=
  match w.mem.items.find? (fun i => i.id == id) with
  | none => (w, true)
  | some target =>
    let updatedItem := applyUpdates u target
    let next := w.mem.items.map (fun i => if i.id == id then updatedItem else i)
    let mem1 := setItems w.mem next
    if txOk then
      ({ w with mem := mem1, db := { w.db with media := storePut w.db.media updatedItem } }, true)
    else
      ({ w with mem := reconcile w reloadOk mem1 }, false)

/-- `hideItem`: move a public record to the hidden partition; one atomic
transaction deleting from `media` and adding to `hidden`; reload on failure. -/
def hideItem (txOk reloadOk : Bool) (id : Str) (w : World) : World × Bool :=
  match w.mem.items.find? (fun i => i.id == id) with
  | none => (w, true)
  | some item =>
    let hiddenItem := { item with isHidden := some true }
    let newItems := w.mem.items.filter (fun i => i.id != id)
    let mem1 := setItems { w.mem with hiddenItems := hiddenItem :: w.mem.hiddenItems } newItems
    match (if txOk then storeAdd w.db.hidden hiddenItem else none) with
    | some hidden1 =>
      ({ w with mem := mem1, db := { media := storeDelete w.db.media id, hidden := hidden1 } },
        true)
    | none => ({ w with mem := reconcile w reloadOk mem1 }, false)

/-- `unhideItem`: move a hidden record back to the public partition; one
atomic transaction adding to `media` and deleting from `hidden`. -/
def unhideItem (txOk reloadOk : Bool) (id : Str) (w : World) : World × Bool :=
  match w.mem.hiddenItems.find? (fun i => i.id == id) with
  | none => (w, true)
  | some item =>
    let unhidden := { item with isHidden := some false }
    let newHidden := w.mem.hiddenItems.filter (fun i => i.id != id)
    let newItems := unhidden :: w.mem.items
    let mem1 := setItems { w.mem with hiddenItems := newHidden } newItems
    match (if txOk then storeAdd w.db.media unhidden else none) with
    | some media1 =>
      ({ w with mem := mem1, db := { media := media1, hidden := storeDelete w.db.hidden id } },
        true)
    | none => ({ w with mem := reconcile w reloadOk mem1 }, false)

/-- `hideTag`: append to the persisted hidden-tag list. -/
def hideTag (tag : Str) (w : World) : World :=
  let updated := w.mem.hiddenTags ++ [tag]
  { w with mem := { w.mem with hiddenTags := updated }, ls := some updated }

/-- `unhideTag`: remove from the persisted hidden-tag list. -/
def unhideTag (tag : Str) (w : World) : World :=
  let updated := w.mem.hiddenTags.filter (fun t => t != tag)
  { w with mem := { w.mem with hiddenTags := updated }, ls := some updated }

/-- An importable draft (`ImportableMedia`): a partial record; `none` models
an absent or wrongly-typed field. -/
structure ImportDraft where
  id : Option Str
  url : Option Str
  type : Option Str
  name : Option Str
  tags : Option (List Str)
  thumbnail : Option Str
  createdAt : Option Nat
deriving DecidableEq

/-- The `{ added, skipped }` result of `importItems`. -/
structure ImportCounts where
  added : Nat
  skipped : Nat
deriving DecidableEq

/-- Environment of a bulk operation: the clock, the random id generator
(indexed by how many ids were generated so far), the `new URL(u).hostname`
parser (`none` modelling a parse failure), and the transaction oracles. -/
structure ImportEnv where
  now : Nat
  genId : Nat → Str
  host : Str → Option Str
  readOk : Bool
  txOk : Bool

/-- The normalized URL key `url.trim().toLowerCase()` used for deduplication. -/
def urlKeyOf (u : Str) : Str := toLowerStr (trimStr u)

/-- Normalization of the `type` hint on import. -/
def normType (t : Option Str) : Str :=
  match t with
  | some s => if s == str "image" || s == str "video" || s == str "other" then s else str "other"
  | none => str "other"

/-- Name fallback on import: a non-blank given name, else the URL host name,
else "Untitled". -/
def normName (env : ImportEnv) (nm : Option Str) (url : Str) : Str :=
  let fallback :=
    match env.host url with
    | some h => h
    | none => str "Untitled"
  match nm with
  | some s => if (trimStr s).isEmpty then fallback else s
  | none => fallback

/-- Loop state of `importItems`: the `existingByUrl` set, the `existingById`
set, the accepted records, and the number of generated ids so far. -/
structure ImpAcc where
  urls : List Str
  ids : List Str
  toAdd : List MediaItem
  gen : Nat
deriving DecidableEq

/-- One iteration of the `importItems` candidate loop. -/
def importStep (env : ImportEnv) (acc : ImpAcc) (raw : ImportDraft) : ImpAcc :=
  let url := raw.url.getD []
  if url.isEmpty then acc
  else
    let urlKey := urlKeyOf url
    if acc.urls.contains urlKey then acc
    else
      let ty := normType raw.type
      let idAndGen : Str × Nat :=
        match raw.id with
        | some s => if (trimStr s).isEmpty then (env.genId acc.gen, acc.gen + 1) else (s, acc.gen)
        | none => (env.genId acc.gen, acc.gen + 1)
      let idFinal : Str × Nat :=
        if acc.ids.contains idAndGen.1 then (env.genId idAndGen.2, idAndGen.2 + 1) else idAndGen
      let item : MediaItem :=
        { id := idFinal.1
          url := url
          type := ty
          format := detectFormat url ty
          name := normName env raw.name url
          tags := raw.tags.getD []
          thumbnail := raw.thumbnail
          createdAt := raw.createdAt.getD env.now
          isHidden := some false }
      { urls := acc.urls ++ [urlKey]
        ids := acc.ids ++ [idFinal.1]
        toAdd := acc.toAdd ++ [item]
        gen := idFinal.2 }

/-- The initial accumulator of the `importItems` loop: the URL keys and ids
of the records already in the public partition. -/
def impAccInit (media : List MediaItem) : ImpAcc :=
  { urls := media.map (fun i => urlKeyOf i.url)
    ids := media.map (fun i => i.id)
    toAdd := []
    gen := 0 }

/-- `importItems`: read the public partition, deduplicate by normalized URL
against it and within the batch, resolve id collisions against public ids,
persist all accepted records in one transaction, then merge into memory and
re-sort.  `none` in the second component models a rejected promise. -/
def importItems (env : ImportEnv) (incoming : List ImportDraft) (w : World) :
    World × Option ImportCounts :=
  if incoming.isEmpty then (w, some { added := 0, skipped := 0 })
  else if !env.readOk then (w, none)
  else
    let acc := incoming.foldl (importStep env) (impAccInit w.db.media)
    if acc.toAdd.isEmpty then (w, some { added := 0, skipped := incoming.length })
    else
      match (if env.txOk then storeAddAll w.db.media acc.toAdd else none) with
      | none => (w, none)
      | some media1 =>
        let next := sortItems (acc.toAdd ++ w.mem.items)
        ({ w with mem := setItems w.mem next, db := { w.db with media := media1 } },
          some { added := acc.toAdd.length, skipped := incoming.length - acc.toAdd.length })

/-- One iteration of the `overwriteWithItems` normalization loop (same as
`importStep` but with no URL or id deduplication). -/
def overwriteStep (env : ImportEnv) (acc : List MediaItem × Nat) (raw : ImportDraft) :
    List MediaItem × Nat :=
  let url := raw.url.getD []
  if url.isEmpty then acc
  else
    let ty := normType raw.type
    let idAndGen : Str × Nat :=
      match raw.id with
      | some s => if (trimStr s).isEmpty then (env.genId acc.2, acc.2 + 1) else (s, acc.2)
      | none => (env.genId acc.2, acc.2 + 1)
    let item : MediaItem :=
      { id := idAndGen.1
        url := url
        type := ty
        format := detectFormat url ty
        name := normName env raw.name url
        tags := raw.tags.getD []
        thumbnail := raw.thumbnail
        createdAt := raw.createdAt.getD env.now
        isHidden := some false }
    (acc.1 ++ [item], idAndGen.2)

/-- `overwriteWithItems`: clear both stores and the hidden-tag preference in
one transaction, then normalize and insert the batch, replacing memory. -/
def overwriteWithItems (env : ImportEnv) (clearOk : Bool) (incoming : List ImportDraft)
    (w : World) : World × Option Nat :=
  if !clearOk then (w, none)
  else
    let w1 : World := { w with db := { media := [], hidden := [] }, ls := none }
    let toAdd := (incoming.foldl (overwriteStep env) ([], 0)).1
    if toAdd.isEmpty then (w1, some 0)
    else
      match (if env.txOk then storeAddAll w1.db.media toAdd else none) with
      | none => (w1, none)
      | some media1 =>
        let next := sortItems toAdd
        let mem2 :=
          setItems { items := [], hiddenItems := [], hiddenTags := [], allTags := [],
                     allFormats := [] } next
        ({ mem := mem2, db := { media := media1, hidden := [] }, ls := none }, some toAdd.length)

/-- Passcode verifier configuration (`VaultConfig`); the base64-encoded salt
and hash are modelled by their decoded byte lists. -/
structure VaultCfg where
  salt : List Nat
  hash : List Nat
  iterations : Nat
deriving DecidableEq

/-- A value read from the session-scoped storage slot: a numeric string or a
string `Number(...)` maps to NaN. -/
inductive SessRaw where
  | num (n : Int)
  | notNum
deriving DecidableEq

/-- `Number(raw)` restricted to what `Number.isFinite` accepts. -/
def sessNum : SessRaw → Option Int
  | SessRaw.num n => some n
  | SessRaw.notNum => none

/-- The vault store state; `session` is the `vaultUnlockedUntil`
sessionStorage slot. -/
structure VaultState where
  config : Option VaultCfg
  isUnlocked : Bool
  unlockUntil : Option Int
  blurHidden : Bool
  attempts : Nat
  rememberTTL : Bool
  session : Option SessRaw
deriving DecidableEq

/-- `verifyAndUnlock(code, ttlMinutes)`.  `verify` abstracts the
asynchronous `verifyPasscode`; `sessOk` tells whether the guarded
`sessionStorage.setItem` succeeds. -/
def verifyAndUnlock (verify : Str → VaultCfg → Bool) (now : Int) (code : Str)
    (ttlMinutes : Int) (sessOk : Bool) (s : VaultState) : VaultState × Bool :=
  match s.config with
  | none => (s, false)
  | some cfg =>
    if verify code cfg then
      if s.rememberTTL then
        let untilMs := now + ttlMinutes * 60000
        let sess := if sessOk then some (SessRaw.num untilMs) else s.session
        ({ s with isUnlocked := true, unlockUntil := some untilMs, attempts := 0, session := sess },
          true)
      else
        ({ s with isUnlocked := true, unlockUntil := none, attempts := 0 }, true)
    else
      ({ s with attempts := s.attempts + 1 }, false)

/-- `lock()`. -/
def lock (s : VaultState) : VaultState :=
  { s with isUnlocked := false, unlockUntil := none, session := none }

/-- `setupPasscode(code)`, with the hash computation abstracted into the
produced configuration. -/
def setupPasscode (cfg : VaultCfg) (s : VaultState) : VaultState := { s with config := some cfg }

/-- `setRememberTTL(v)`. -/
def setRememberTTL (v : Bool) (s : VaultState) : VaultState := { s with rememberTTL := v }

/-- `setBlurHidden(v)`. -/
def setBlurHidden (v : Bool) (s : VaultState) : VaultState := { s with blurHidden := v }

/-- `hydrateFromSession()` at clock value `now`. -/
def hydrateFromSession (now : Int) (s : VaultState) : VaultState :=
  if !s.rememberTTL then
    { s with isUnlocked := false, unlockUntil := none, session := none }
  else
    match s.session with
    | none => s
    | some raw =>
      match sessNum raw with
      | some n =>
        if n > now then { s with isUnlocked := true, unlockUntil := some n }
        else { s with isUnlocked := false, unlockUntil := none, session := none }
      | none => { s with isUnlocked := false, unlockUntil := none, session := none }

/-- `constantTimeEqual(a, b)` from `crypto.ts`, over byte lists. -/
def constantTimeEqual (a b : List Nat) : Bool :=
  if a.length != b.length then false
  else ((a.zip b).foldl (fun diff p => diff ||| (p.1 ^^^ p.2)) 0) == 0

/-- `verifyPasscode(passcode, cfg)`: re-derive with the stored salt and
iteration count and compare in constant time.  `derive` abstracts the
PBKDF2-SHA256 primitive. -/
def verifyPasscode (derive : Str → List Nat → Nat → List Nat) (passcode : Str)
    (cfg : VaultCfg) : Bool :=
  constantTimeEqual (derive passcode cfg.salt cfg.iterations) cfg.hash

/-- The normalized URL key of an import draft. -/
def draftUrlKey (d : ImportDraft) : Str := urlKeyOf (d.url.getD [])

/-- The record that `importItems` builds for an accepted draft, given the id
it settles on. -/
def importedItem (env : ImportEnv) (raw : ImportDraft) (newId : Str) : MediaItem :=
  { id := newId
    url := raw.url.getD []
    type := normType raw.type
    format := detectFormat (raw.url.getD []) (normType raw.type)
    name := normName env raw.name (raw.url.getD [])
    tags := raw.tags.getD []
    thumbnail := raw.thumbnail
    createdAt := raw.createdAt.getD env.now
    isHidden := some false }

/-- Preconditions of the `importItems` idempotence claim: every draft has a
non-empty URL, the normalized URLs are pairwise distinct and not already in
the public partition, the public partition's ids are unique (its store is
keyed by id), and the random id generator produces ids that are injective and
fresh within the (at most `2 * N`) generations the batch can consume. -/
abbrev ImportBatchFresh (env : ImportEnv) (w : World) (incoming : List ImportDraft) : Prop :=
  (∀ d ∈ incoming, (d.url.getD []).isEmpty = false) ∧
  (incoming.map draftUrlKey).Nodup ∧
  (∀ d ∈ incoming, draftUrlKey d ∉ w.db.media.map (fun i => urlKeyOf i.url)) ∧
  (w.db.media.map (fun i => i.id)).Nodup ∧
  (∀ j k, j < 2 * incoming.length → k < 2 * incoming.length →
    env.genId j = env.genId k → j = k) ∧
  (∀ k, k < 2 * incoming.length → env.genId k ∉ w.db.media.map (fun i => i.id)) ∧
  (∀ k, k < 2 * incoming.length → ∀ d ∈ incoming, ∀ s, d.id = some s → env.genId k ≠ s)

/-! Concrete fixtures used by witnesses and counterexamples. -/

/-- A deterministic import environment for concrete runs. -/
def importEnvSimple : ImportEnv where
  now := 0
  genId := fun k => str "g" ++ natToStr k
  host := fun _ => none
  readOk := true
  txOk := true

/-- A draft with a fresh URL and no id. -/
def draftNew : ImportDraft where
  id := none
  url := some (str "http://new.example")
  type := none
  name := none
  tags := none
  thumbnail := none
  createdAt := some 3

/-- A draft whose explicit id equals the id of a HIDDEN record. -/
def draftCollide : ImportDraft where
  id := some (str "h")
  url := some (str "http://new")
  type := none
  name := none
  tags := none
  thumbnail := none
  createdAt := some 7

/-- A vault state with no passcode configuration. -/
def vaultNoCfg : VaultState :=
  { config := none, isUnlocked := false, unlockUntil := none, blurHidden := true,
    attempts := 3, rememberTTL := false, session := none }

/-- A vault state with a configuration present. -/
def vaultWithCfg : VaultState :=
  { config := some { salt := [1], hash := [2], iterations := 1 }, isUnlocked := false,
    unlockUntil := none, blurHidden := true, attempts := 0, rememberTTL := false,
    session := none }

/-- A vault state with remember enabled, currently unlocked, and no persisted
session expiry. -/
def vaultRememberNoSess : VaultState :=
  { config := none, isUnlocked := true, unlockUntil := none, blurHidden := true,
    attempts := 0, rememberTTL := true, session := none }

/-- An empty store world. -/
def emptyWorld : World where
  mem := { items := [], hiddenItems := [], hiddenTags := [], allTags := [], allFormats := [] }
  db := { media := [], hidden := [] }
  ls := none

/-- A public record whose id happens to be the decimal string of a timestamp. -/
def itemFive : MediaItem where
  id := str "5"
  url := str "http://a"
  type := str "other"
  format := str "website"
  name := str "a"
  tags := [str "t"]
  thumbnail := none
  createdAt := 5
  isHidden := none

/-- A coherent world containing `itemFive` in memory and storage. -/
def worldFive : World where
  mem :=
    { items := [itemFive]
      hiddenItems := []
      hiddenTags := []
      allTags := computeAllTags [itemFive]
      allFormats := computeAllFormats [itemFive] }
  db := { media := [itemFive], hidden := [] }
  ls := none

/-- A draft for `addItem`. -/
def draftB : NewDraft where
  url := str "http://b"
  type := str "other"
  name := str "b"
  tags := []
  thumbnail := none
  isHidden := none

/-- A public record with id "a". -/
def itemA : MediaItem where
  id := str "a"
  url := str "http://a"
  type := str "other"
  format := str "website"
  name := str "a"
  tags := []
  thumbnail := none
  createdAt := 10
  isHidden := none

/-- A public record with id "b", as the in-memory state has it. -/
def itemB : MediaItem where
  id := str "b"
  url := str "http://b"
  type := str "other"
  format := str "website"
  name := str "old"
  tags := []
  thumbnail := none
  createdAt := 5
  isHidden := none

/-- The stored version of `itemB`, diverged from memory. -/
def itemBneu : MediaItem := { itemB with name := str "neu" }

/-- A world whose memory has drifted from storage on record "b" (reachable by
an earlier updateItem whose transaction and reload both failed). -/
def worldDrift : World where
  mem :=
    { items := [itemA, itemB]
      hiddenItems := []
      hiddenTags := []
      allTags := computeAllTags [itemA, itemB]
      allFormats := computeAllFormats [itemA, itemB] }
  db := { media := [itemA, itemBneu], hidden := [] }
  ls := none

/-- A coherent world containing only `itemA`. -/
def worldA : World where
  mem :=
    { items := [itemA]
      hiddenItems := []
      hiddenTags := []
      allTags := computeAllTags [itemA]
      allFormats := computeAllFormats [itemA] }
  db := { media := [itemA], hidden := [] }
  ls := none

/-- A hidden record older than `itemA`. -/
def itemH : MediaItem where
  id := str "h"
  url := str "http://h"
  type := str "other"
  format := str "website"
  name := str "h"
  tags := []
  thumbnail := none
  createdAt := 5
  isHidden := some true

/-- A coherent world with `itemA` public (createdAt 10) and `itemH` hidden
(createdAt 5). -/
def worldWithHidden : World where
  mem :=
    { items := [itemA]
      hiddenItems := [itemH]
      hiddenTags := []
      allTags := computeAllTags [itemA]
      allFormats := computeAllFormats [itemA] }
  db := { media := [itemA], hidden := [itemH] }
  ls := none

/-- The empty partial update. -/
def noUpdates : ItemUpdates where
  url := none
  type := none
  format := none
  name := none
  tags := none
  thumbnail := none
  isHidden := none

/-- A partial update touching only the display name. -/
def nameUpdate : ItemUpdates := { noUpdates with name := some (str "x") }

end Previewz

namespace Previewz

/-! ### Helper lemmas -/

theorem nat_or_eq_zero (x y : Nat) : x ||| y = 0 ↔ x = 0 ∧ y = 0 := by
  constructor
  · intro h
    refine ⟨Nat.eq_of_testBit_eq fun i => ?_, Nat.eq_of_testBit_eq fun i => ?_⟩ <;>
      · have h2 := congrArg (fun t => Nat.testBit t i) h
        simp only [Nat.testBit_or, Nat.zero_testBit, Bool.or_eq_false_iff] at h2
        simp [h2]
  · rintro ⟨rfl, rfl⟩
    rfl

theorem foldl_or_xor_eq_zero (l : List (Nat × Nat)) (acc : Nat) :
    (l.foldl (fun diff p => diff ||| (p.1 ^^^ p.2)) acc = 0) ↔
      (acc = 0 ∧ ∀ p ∈ l, p.1 = p.2) := by
  induction l generalizing acc with
  | nil => simp
  | cons p l ih =>
    simp only [List.foldl_cons, ih, nat_or_eq_zero, Nat.xor_eq_zero, List.mem_cons]
    constructor
    · rintro ⟨⟨h0, hp⟩, hl⟩
      exact ⟨h0, fun q hq => hq.elim (fun e => e ▸ hp) (hl q)⟩
    · rintro ⟨h0, hl⟩
      exact ⟨⟨h0, hl p (Or.inl rfl)⟩, fun q hq => hl q (Or.inr hq)⟩

theorem eq_of_length_eq_of_zip (a b : List Nat) (hl : a.length = b.length)
    (h : ∀ p ∈ a.zip b, p.1 = p.2) : a = b := by
  induction a generalizing b with
  | nil => cases b with
    | nil => rfl
    | cons y b => simp at hl
  | cons x a ih =>
    cases b with
    | nil => simp at hl
    | cons y b =>
      have hx : x = y := h (x, y) (by simp)
      have ha : a = b := by
        refine ih b (by simpa using hl) fun q hq => h q ?_
        simp [List.zip_cons_cons, hq]
      rw [hx, ha]

theorem zip_self_fst_eq_snd (a : List Nat) : ∀ p ∈ a.zip a, p.1 = p.2 := by
  induction a with
  | nil => simp
  | cons x a ih =>
    intro p hp
    rcases List.mem_cons.mp hp with h | h
    · rw [h]
    · exact ih p h

theorem constantTimeEqual_iff (a b : List Nat) : constantTimeEqual a b = true ↔ a = b := by
  unfold constantTimeEqual
  by_cases hl : a.length = b.length
  · rw [if_neg (by simp [hl])]
    rw [beq_iff_eq, foldl_or_xor_eq_zero]
    constructor
    · rintro ⟨-, hp⟩
      exact eq_of_length_eq_of_zip a b hl hp
    · rintro rfl
      exact ⟨rfl, zip_self_fst_eq_snd a⟩
  · rw [if_pos (by simp [hl])]
    refine iff_of_false (by simp) fun hab => hl ?_
    rw [hab]

/-! ### Claim theorems -/

/-- Claim C4: `detectFormat` is a pure function applying its checks in the
precedence order image, video, document, website, other (first match wins),
and it satisfies the five published classifier scenarios. -/
theorem C4_detectFormat_precedence_and_scenarios :
    (detectFormat (str "https://x.com/a.png") (str "image") = str "image") ∧
    (detectFormat (str "https://youtu.be/abc") (str "video") = str "video") ∧
    (detectFormat (str "https://x.com/doc.pdf") (str "other") = str "document") ∧
    (detectFormat (str "https://example.com") (str "other") = str "website") ∧
    (detectFormat (str "ftp://x") (str "other") = str "other") ∧
    (∀ url ty, isImageUrl (toLowerStr url) = true → detectFormat url ty = str "image") ∧
    (∀ url ty, isImageUrl (toLowerStr url) = false → isVideoUrl (toLowerStr url) = true →
      detectFormat url ty = str "video") ∧
    (∀ url ty, isImageUrl (toLowerStr url) = false → isVideoUrl (toLowerStr url) = false →
      isDocumentUrl (toLowerStr url) = true → detectFormat url ty = str "document") ∧
    (∀ url ty, isImageUrl (toLowerStr url) = false → isVideoUrl (toLowerStr url) = false →
      isDocumentUrl (toLowerStr url) = false → isWebsiteUrl (toLowerStr url) = true →
      detectFormat url ty = str "website") ∧
    (∀ url ty, isImageUrl (toLowerStr url) = false → isVideoUrl (toLowerStr url) = false →
      isDocumentUrl (toLowerStr url) = false → isWebsiteUrl (toLowerStr url) = false →
      detectFormat url ty = str "other") := by
  refine ⟨by decide, by decide, by decide, by decide, by decide, ?_, ?_, ?_, ?_, ?_⟩
  · intro url ty h1
    simp [detectFormat, h1]
  · intro url ty h1 h2
    simp [detectFormat, h1, h2]
  · intro url ty h1 h2 h3
    simp [detectFormat, h1, h2, h3]
  · intro url ty h1 h2 h3 h4
    simp [detectFormat, h1, h2, h3, h4]
  · intro url ty h1 h2 h3 h4
    simp [detectFormat, h1, h2, h3, h4]

/-- Witness for C4: the precedence implications applied at concrete URLs. -/
theorem C4_witness :
    detectFormat (str "a.png") (str "zz") = str "image" ∧
    detectFormat (str "a.mp4") (str "zz") = str "video" ∧
    detectFormat (str "a.pdf") (str "zz") = str "document" ∧
    detectFormat (str "http://a") (str "zz") = str "website" ∧
    detectFormat (str "zz") (str "zz") = str "other" :=
  ⟨C4_detectFormat_precedence_and_scenarios.2.2.2.2.2.1 (str "a.png") (str "zz") (by decide),
   C4_detectFormat_precedence_and_scenarios.2.2.2.2.2.2.1 (str "a.mp4") (str "zz")
     (by decide) (by decide),
   C4_detectFormat_precedence_and_scenarios.2.2.2.2.2.2.2.1 (str "a.pdf") (str "zz")
     (by decide) (by decide) (by decide),
   C4_detectFormat_precedence_and_scenarios.2.2.2.2.2.2.2.2.1 (str "http://a") (str "zz")
     (by decide) (by decide) (by decide) (by decide),
   C4_detectFormat_precedence_and_scenarios.2.2.2.2.2.2.2.2.2 (str "zz") (str "zz")
     (by decide) (by decide) (by decide) (by decide)⟩

/-- Claim C10: `constantTimeEqual` decides byte-for-byte equality (including
length), and therefore `verifyPasscode` returns `true` exactly when the
derivation of the passcode with the stored salt and iteration count equals the
stored hash; being a total function, it returns `false` (never throws) on any
mismatch. -/
theorem C10_constantTimeEqual_verifyPasscode :
    (∀ a b : List Nat, constantTimeEqual a b = true ↔ a = b) ∧
    (∀ (derive : Str → List Nat → Nat → List Nat) (p : Str) (cfg : VaultCfg),
      verifyPasscode derive p cfg = true ↔ derive p cfg.salt cfg.iterations = cfg.hash) := by
  refine ⟨constantTimeEqual_iff, fun derive p cfg => ?_⟩
  unfold verifyPasscode
  exact constantTimeEqual_iff _ _

/-- Claim C1 counterexample: when no VaultConfig exists, `verifyAndUnlock`
returns `false` but leaves the failed-attempt counter unchanged (the claim
demands an increment). -/
theorem C1_counterexample :
    (verifyAndUnlock (fun _ _ => false) 0 (str "1234") 20 true vaultNoCfg).2 = false ∧
    ¬ ((verifyAndUnlock (fun _ _ => false) 0 (str "1234") 20 true vaultNoCfg).1.attempts
        = vaultNoCfg.attempts + 1) := by
  decide

/-- Claim C1 (amended): `verifyAndUnlock` returns `false` with the whole
state (in particular `isUnlocked` and the counter) unchanged when no
VaultConfig exists; when a config exists and verification fails it returns
`false` with the failed-attempt counter incremented by one and everything
else (in particular `isUnlocked`) unchanged. -/
theorem C1_verifyAndUnlock_failure (verify : Str → VaultCfg → Bool) (now : Int)
    (code : Str) (ttl : Int) (sessOk : Bool) (s : VaultState) :
    (s.config = none → verifyAndUnlock verify now code ttl sessOk s = (s, false)) ∧
    (∀ cfg, s.config = some cfg → verify code cfg = false →
      verifyAndUnlock verify now code ttl sessOk s
        = ({ s with attempts := s.attempts + 1 }, false)) := by
  constructor
  · intro h
    simp [verifyAndUnlock, h]
  · intro cfg hc hv
    simp [verifyAndUnlock, hc, hv]

/-- Witness for C1: both failure branches at concrete states. -/
theorem C1_witness :
    verifyAndUnlock (fun _ _ => false) 0 (str "9") 20 true vaultNoCfg = (vaultNoCfg, false) ∧
    verifyAndUnlock (fun _ _ => false) 0 (str "9") 20 true vaultWithCfg
      = ({ vaultWithCfg with attempts := vaultWithCfg.attempts + 1 }, false) :=
  ⟨(C1_verifyAndUnlock_failure (fun _ _ => false) 0 (str "9") 20 true vaultNoCfg).1 rfl,
   (C1_verifyAndUnlock_failure (fun _ _ => false) 0 (str "9") 20 true vaultWithCfg).2
     { salt := [1], hash := [2], iterations := 1 } rfl rfl⟩

/-- Claim C7 counterexample: with remember enabled, an unlocked state and no
persisted expiry, `hydrateFromSession` returns with no state change, leaving
`isUnlocked` true (the claim demands it be forced to false). -/
theorem C7_counterexample :
    (hydrateFromSession 1000 vaultRememberNoSess).isUnlocked = true ∧
    hydrateFromSession 1000 vaultRememberNoSess = vaultRememberNoSess := by
  decide

/-- Claim C7 (amended): if remember is disabled, `hydrateFromSession` forces
locked and clears the session slot; if remember is enabled and the persisted
expiry is absent it returns with NO state change; if the expiry is numeric and
in the future it unlocks with that expiry restored; if it is numeric but not
in the future, or not a finite number, it forces locked and clears the slot. -/
theorem C7_hydrateFromSession (now : Int) (s : VaultState) :
    (s.rememberTTL = false →
      hydrateFromSession now s
        = { s with isUnlocked := false, unlockUntil := none, session := none }) ∧
    (s.rememberTTL = true → s.session = none → hydrateFromSession now s = s) ∧
    (∀ n : Int, s.rememberTTL = true → s.session = some (SessRaw.num n) → now < n →
      hydrateFromSession now s = { s with isUnlocked := true, unlockUntil := some n }) ∧
    (∀ n : Int, s.rememberTTL = true → s.session = some (SessRaw.num n) → ¬ now < n →
      hydrateFromSession now s
        = { s with isUnlocked := false, unlockUntil := none, session := none }) ∧
    (s.rememberTTL = true → s.session = some SessRaw.notNum →
      hydrateFromSession now s
        = { s with isUnlocked := false, unlockUntil := none, session := none }) := by
  refine ⟨fun h => ?_, fun h hs => ?_, fun n h hs hn => ?_, fun n h hs hn => ?_, fun h hs => ?_⟩
  · simp [hydrateFromSession, h]
  · simp [hydrateFromSession, h, hs]
  · simp [hydrateFromSession, h, hs, sessNum, hn]
  · simp [hydrateFromSession, h, hs, sessNum, hn]
  · simp [hydrateFromSession, h, hs, sessNum]

/-- Witness for C7: all five branches at concrete states. -/
theorem C7_witness :
    hydrateFromSession 5 vaultNoCfg
      = { vaultNoCfg with isUnlocked := false, unlockUntil := none, session := none } ∧
    hydrateFromSession 5 vaultRememberNoSess = vaultRememberNoSess ∧
    hydrateFromSession 5 { vaultRememberNoSess with session := some (SessRaw.num 9) }
      = { vaultRememberNoSess with session := some (SessRaw.num 9), unlockUntil := some 9 } ∧
    hydrateFromSession 5 { vaultRememberNoSess with session := some (SessRaw.num 3) }
      = { vaultRememberNoSess with isUnlocked := false, unlockUntil := none, session := none } ∧
    hydrateFromSession 5 { vaultRememberNoSess with session := some SessRaw.notNum }
      = { vaultRememberNoSess with isUnlocked := false, unlockUntil := none, session := none } :=
  ⟨(C7_hydrateFromSession 5 vaultNoCfg).1 rfl,
   (C7_hydrateFromSession 5 vaultRememberNoSess).2.1 rfl rfl,
   (C7_hydrateFromSession 5 _).2.2.1 9 rfl rfl (by decide),
   (C7_hydrateFromSession 5 _).2.2.2.1 3 rfl rfl (by decide),
   (C7_hydrateFromSession 5 _).2.2.2.2 rfl rfl⟩

/-! ### List helper lemmas about ids -/

theorem hasKey_eq_false (s : List MediaItem) (id : Str) (h : ∀ a ∈ s, a.id ≠ id) :
    hasKey s id = false := by
  rw [Bool.eq_false_iff]
  intro hk
  obtain ⟨a, ha, hb⟩ := List.any_eq_true.mp hk
  exact h a ha (eq_of_beq hb)

theorem filter_ne_id_eq_self (l : List MediaItem) (id : Str) (h : ∀ a ∈ l, a.id ≠ id) :
    l.filter (fun i => i.id != id) = l :=
  List.filter_eq_self.mpr fun a ha => bne_iff_ne.mpr (h a ha)

theorem filter_drop_append (l₁ l₂ : List MediaItem) (x : MediaItem) (id : Str)
    (hx : x.id = id) (h₁ : ∀ a ∈ l₁, a.id ≠ id) (h₂ : ∀ a ∈ l₂, a.id ≠ id) :
    (l₁ ++ x :: l₂).filter (fun i => i.id != id) = l₁ ++ l₂ := by
  rw [List.filter_append, filter_ne_id_eq_self l₁ id h₁, List.filter_cons,
    if_neg (by simp [hx]), filter_ne_id_eq_self l₂ id h₂]

theorem find_id_append_cons (l₁ l₂ : List MediaItem) (x : MediaItem) (id : Str)
    (hx : x.id = id) (h₁ : ∀ a ∈ l₁, a.id ≠ id) :
    (l₁ ++ x :: l₂).find? (fun i => i.id == id) = some x := by
  induction l₁ with
  | nil => exact List.find?_cons_of_pos l₂ (by simp [hx])
  | cons a l ih =>
    rw [List.cons_append, List.find?_cons_of_neg _ (by simp [h₁ a (List.mem_cons_self a l)])]
    exact ih fun b hb => h₁ b (List.mem_cons_of_mem a hb)

theorem map_replace_single (l₁ l₂ : List MediaItem) (x y : MediaItem) (id : Str)
    (hx : x.id = id) (h₁ : ∀ a ∈ l₁, a.id ≠ id) (h₂ : ∀ a ∈ l₂, a.id ≠ id) :
    (l₁ ++ x :: l₂).map (fun i => if i.id == id then y else i) = l₁ ++ y :: l₂ := by
  rw [List.map_append, List.map_cons, if_pos (by simp [hx])]
  congr 1
  · induction l₁ with
    | nil => rfl
    | cons a l ih =>
      rw [List.map_cons, if_neg (by simp [h₁ a (List.mem_cons_self a l)]),
        ih fun b hb => h₁ b (List.mem_cons_of_mem a hb)]
  · congr 1
    induction l₂ with
    | nil => rfl
    | cons a l ih =>
      rw [List.map_cons, if_neg (by simp [h₂ a (List.mem_cons_self a l)]),
        ih fun b hb => h₂ b (List.mem_cons_of_mem a hb)]

/-- Claim C6 counterexample: in a coherent world holding a record whose id
equals the generated id string, a failing `addItem` transaction rolls back by
id and removes the pre-existing record as well, so the public partition does
not equal its pre-call value.  (The transaction failure here is forced: the
IndexedDB `add` key "5" already exists.) -/
theorem C6_counterexample :
    (addItem 5 true draftB worldFive).2 = false ∧
    (addItem 5 true draftB worldFive).1.mem.items = [] ∧
    worldFive.mem.items = [itemFive] := by
  decide

/-- Claim C6 (amended): if `addItem`'s storage transaction fails, then —
provided no pre-existing public record carries the generated id (the decimal
string of the creation timestamp) and the derived indexes are the ones
computed from the public items — the optimistic record is removed by its id,
the whole world (public partition, allTags, allFormats, database) equals its
pre-call value, and the error is re-thrown (result `false`). -/
theorem C6_addItem_rollback (now : Nat) (txOk : Bool) (d : NewDraft) (w : World)
    (hfresh : ∀ i ∈ w.mem.items, i.id ≠ natToStr now)
    (htags : w.mem.allTags = computeAllTags w.mem.items)
    (hfmts : w.mem.allFormats = computeAllFormats w.mem.items) :
    (addItem now txOk d w).2 = false → (addItem now txOk d w).1 = w := by
  have hfilter : (draftToItem now d :: w.mem.items).filter
      (fun i => i.id != (draftToItem now d).id) = w.mem.items := by
    rw [List.filter_cons, if_neg (by simp)]
    exact filter_ne_id_eq_self w.mem.items (natToStr now) hfresh
  simp only [addItem]
  cases htx : (if txOk = true then storeAdd w.db.media (draftToItem now d) else none) with
  | some m => simp
  | none =>
    intro _
    rw [hfilter]
    simp only [setItems]
    rw [← htags, ← hfmts]

/-- Witness for C6: a failing add on the empty world restores it exactly. -/
theorem C6_witness : (addItem 1 false draftB emptyWorld).1 = emptyWorld :=
  C6_addItem_rollback 1 false draftB emptyWorld (by decide) (by decide) (by decide) (by decide)

/-- Claim C8 counterexample: `updateItem` on id "a" whose transaction fails
reconciles the whole store from storage, replacing the unrelated record "b"
by its diverged stored version — so a record other than the given id changed. -/
theorem C8_counterexample :
    ((updateItem false true (str "a") nameUpdate worldDrift).1.mem.items.find?
       (fun i => i.id == str "b")) = some itemBneu ∧
    worldDrift.mem.items.find? (fun i => i.id == str "b") = some itemB ∧
    itemBneu ≠ itemB := by
  decide

/-- Claim C8 (amended): when the storage transaction succeeds and the public
partition carries the given id at most once, `updateItem` keeps the target's
`id` and `createdAt` and replaces only the target, leaving every other public
record and the hidden partition unchanged; when no public record has the id,
`updateItem` is a no-op returning the whole state unchanged.  (When the
transaction fails the store is instead reconciled from storage, which may
replace other records by their stored versions.) -/
theorem C8_updateItem (reloadOk : Bool) (id : Str) (u : ItemUpdates) (w : World) :
    (w.mem.items.find? (fun i => i.id == id) = none →
      ∀ txOk, updateItem txOk reloadOk id u w = (w, true)) ∧
    (∀ l₁ x l₂, w.mem.items = l₁ ++ x :: l₂ → x.id = id →
      (∀ a ∈ l₁, a.id ≠ id) → (∀ a ∈ l₂, a.id ≠ id) →
      (updateItem true reloadOk id u w).1.mem.items = l₁ ++ applyUpdates u x :: l₂ ∧
      (applyUpdates u x).id = x.id ∧
      (applyUpdates u x).createdAt = x.createdAt ∧
      (updateItem true reloadOk id u w).1.mem.hiddenItems = w.mem.hiddenItems ∧
      (updateItem true reloadOk id u w).2 = true) := by
  constructor
  · intro hnone txOk
    unfold updateItem
    rw [hnone]
  · intro l₁ x l₂ hitems hx h₁ h₂
    have hfind : w.mem.items.find? (fun i => i.id == id) = some x := by
      rw [hitems]
      exact find_id_append_cons l₁ l₂ x id hx h₁
    have hmap : w.mem.items.map (fun i => if i.id == id then applyUpdates u x else i)
        = l₁ ++ applyUpdates u x :: l₂ := by
      rw [hitems]
      exact map_replace_single l₁ l₂ x (applyUpdates u x) id hx h₁ h₂
    have hres : updateItem true reloadOk id u w
        = ({ mem := setItems w.mem (l₁ ++ applyUpdates u x :: l₂)
             db := { media := storePut w.db.media (applyUpdates u x), hidden := w.db.hidden }
             ls := w.ls },
           true) := by
      unfold updateItem
      simp only [hfind, hmap, if_true]
    rw [hres]
    exact ⟨rfl, rfl, rfl, rfl, rfl⟩

theorem hasKey_storeDelete (s : List MediaItem) (id : Str) :
    hasKey (storeDelete s id) id = false := by
  apply hasKey_eq_false
  intro a ha
  exact bne_iff_ne.mp (List.mem_filter.mp ha).2

/-- Claim C3: for a public record with the given id (unique, per the store
invariant) whose hidden-partition counterpart does not exist, `hideItem`
followed by `unhideItem` (both transactions succeeding, which the uniqueness
hypotheses guarantee) puts the record back at the FRONT of the public
partition with `isHidden` false and every other field exactly as before the
hide, and restores the hidden partition exactly. -/
theorem C3_hide_unhide_roundtrip (reloadOk1 reloadOk2 : Bool) (id : Str) (w : World)
    (l₁ l₂ : List MediaItem) (x : MediaItem)
    (hitems : w.mem.items = l₁ ++ x :: l₂) (hx : x.id = id)
    (h₁ : ∀ a ∈ l₁, a.id ≠ id) (h₂ : ∀ a ∈ l₂, a.id ≠ id)
    (hmh : ∀ a ∈ w.mem.hiddenItems, a.id ≠ id)
    (hdh : ∀ a ∈ w.db.hidden, a.id ≠ id) :
    (hideItem true reloadOk1 id w).2 = true ∧
    (unhideItem true reloadOk2 id (hideItem true reloadOk1 id w).1).2 = true ∧
    (unhideItem true reloadOk2 id (hideItem true reloadOk1 id w).1).1.mem.items
      = { x with isHidden := some false } :: (l₁ ++ l₂) ∧
    (unhideItem true reloadOk2 id (hideItem true reloadOk1 id w).1).1.mem.hiddenItems
      = w.mem.hiddenItems := by
  have hfind1 : w.mem.items.find? (fun i => i.id == id) = some x := by
    rw [hitems]
    exact find_id_append_cons l₁ l₂ x id hx h₁
  have hfilter1 : w.mem.items.filter (fun i => i.id != id) = l₁ ++ l₂ := by
    rw [hitems]
    exact filter_drop_append l₁ l₂ x id hx h₁ h₂
  have hadd1 : storeAdd w.db.hidden { x with isHidden := some true }
      = some (w.db.hidden ++ [{ x with isHidden := some true }]) := by
    unfold storeAdd
    rw [if_neg]
    rw [hasKey_eq_false w.db.hidden _ fun a ha => by
      show a.id ≠ x.id
      rw [hx]
      exact hdh a ha]
    simp
  have hstep1 : hideItem true reloadOk1 id w
      = ({ mem := setItems { w.mem with hiddenItems := { x with isHidden := some true } :: w.mem.hiddenItems } (l₁ ++ l₂)
           db := { media := storeDelete w.db.media id, hidden := w.db.hidden ++ [{ x with isHidden := some true }] }
           ls := w.ls },
         true) := by
    unfold hideItem
    simp only [hfind1, hfilter1, hadd1, if_true]
  have hfind2 : (({ x with isHidden := some true } : MediaItem) :: w.mem.hiddenItems).find?
      (fun i => i.id == id) = some { x with isHidden := some true } :=
    List.find?_cons_of_pos _ (by simp [hx])
  have hfilter2 : (({ x with isHidden := some true } : MediaItem) :: w.mem.hiddenItems).filter
      (fun i => i.id != id) = w.mem.hiddenItems := by
    rw [List.filter_cons, if_neg (by simp [hx])]
    exact filter_ne_id_eq_self w.mem.hiddenItems id hmh
  have hkey2 : hasKey (storeDelete w.db.media id) x.id = false := by
    rw [hx]
    exact hasKey_storeDelete w.db.media id
  have hadd2 : storeAdd (storeDelete w.db.media id) { x with isHidden := some false }
      = some (storeDelete w.db.media id ++ [{ x with isHidden := some false }]) := by
    simp [storeAdd, hkey2]
  rw [hstep1]
  have hstep2 : unhideItem true reloadOk2 id
      ({ mem := setItems { w.mem with hiddenItems := { x with isHidden := some true } :: w.mem.hiddenItems } (l₁ ++ l₂)
         db := { media := storeDelete w.db.media id, hidden := w.db.hidden ++ [{ x with isHidden := some true }] }
         ls := w.ls } : World)
      = ({ mem := setItems { w.mem with hiddenItems := w.mem.hiddenItems } ({ x with isHidden := some false } :: (l₁ ++ l₂))
           db := { media := storeDelete w.db.media id ++ [{ x with isHidden := some false }], hidden := storeDelete (w.db.hidden ++ [{ x with isHidden := some true }]) id }
           ls := w.ls },
         true) := by
    unfold unhideItem
    simp [setItems, hfind2, hfilter2, hadd2]
  rw [hstep2]
  exact ⟨rfl, rfl, rfl, rfl⟩

/-- Witness for C3: the round trip on a one-record world. -/
theorem C3_witness :
    (hideItem true true (str "a") worldA).2 = true ∧
    (unhideItem true true (str "a") (hideItem true true (str "a") worldA).1).2 = true ∧
    (unhideItem true true (str "a") (hideItem true true (str "a") worldA).1).1.mem.items
      = { itemA with isHidden := some false } :: ([] ++ []) ∧
    (unhideItem true true (str "a") (hideItem true true (str "a") worldA).1).1.mem.hiddenItems
      = worldA.mem.hiddenItems :=
  C3_hide_unhide_roundtrip true true (str "a") worldA [] [] itemA (by decide) (by decide)
    (by decide) (by decide) (by decide) (by decide)

theorem sorted_sortItems (l : List MediaItem) : List.Sorted newerFirst (sortItems l) :=
  List.sorted_insertionSort newerFirst l

theorem sorted_reconcile (w : World) (reloadOk : Bool) (m : MemState)
    (hm : List.Sorted newerFirst m.items) :
    List.Sorted newerFirst (reconcile w reloadOk m).items := by
  unfold reconcile
  split
  · exact sorted_sortItems w.db.media
  · exact hm

theorem sorted_of_map_createdAt_eq (l l' : List MediaItem)
    (h : l.map (fun i => i.createdAt) = l'.map (fun i => i.createdAt))
    (hs : List.Sorted newerFirst l) : List.Sorted newerFirst l' := by
  have h1 : (l.map (fun i => i.createdAt)).Pairwise (fun p q : Nat => q ≤ p) :=
    (@List.pairwise_map MediaItem Nat (fun i => i.createdAt) (fun p q => q ≤ p) l).mpr hs
  rw [h] at h1
  exact (@List.pairwise_map MediaItem Nat (fun i => i.createdAt) (fun p q => q ≤ p) l').mp h1

/-- Claim C9 counterexample: starting from a sorted, coherent world,
a successful `unhideItem` of an older hidden record prepends it and leaves the
public items list NOT sorted by `createdAt` descending. -/
theorem C9_counterexample :
    (unhideItem true true (str "h") worldWithHidden).2 = true ∧
    List.Sorted newerFirst worldWithHidden.mem.items ∧
    ¬ List.Sorted newerFirst (unhideItem true true (str "h") worldWithHidden).1.mem.items := by
  decide

/-- Claim C9 (amended): `importItems` and `overwriteWithItems` leave the
public list sorted by `createdAt` descending (they sort explicitly);
`deleteItem` and `hideItem` preserve sortedness; `updateItem` preserves it
when the public partition carries the target id at most once (the merge keeps
`createdAt`); `addItem` preserves it when the clock is at least every stored
`createdAt`; `unhideItem` prepends to the front and preserves sortedness only
when the unhidden record's `createdAt` is at least that of every public
record — in general (see the counterexample) it can break it.  Failed
transactions preserve sortedness as well, through reload or rollback. -/
theorem C9_sort_invariant :
    (∀ env incoming w, List.Sorted newerFirst w.mem.items →
      List.Sorted newerFirst (importItems env incoming w).1.mem.items) ∧
    (∀ env clearOk incoming w, List.Sorted newerFirst w.mem.items →
      List.Sorted newerFirst (overwriteWithItems env clearOk incoming w).1.mem.items) ∧
    (∀ txOk reloadOk id w, List.Sorted newerFirst w.mem.items →
      List.Sorted newerFirst (deleteItem txOk reloadOk id w).1.mem.items) ∧
    (∀ txOk reloadOk id w, List.Sorted newerFirst w.mem.items →
      List.Sorted newerFirst (hideItem txOk reloadOk id w).1.mem.items) ∧
    (∀ txOk reloadOk id u w l₁ x l₂, List.Sorted newerFirst w.mem.items →
      w.mem.items = l₁ ++ x :: l₂ → x.id = id → (∀ a ∈ l₁, a.id ≠ id) →
      (∀ a ∈ l₂, a.id ≠ id) →
      List.Sorted newerFirst (updateItem txOk reloadOk id u w).1.mem.items) ∧
    (∀ now txOk d w, List.Sorted newerFirst w.mem.items →
      (∀ i ∈ w.mem.items, i.createdAt ≤ now) →
      List.Sorted newerFirst (addItem now txOk d w).1.mem.items) ∧
    (∀ txOk reloadOk id w x, List.Sorted newerFirst w.mem.items →
      w.mem.hiddenItems.find? (fun i => i.id == id) = some x →
      (∀ i ∈ w.mem.items, i.createdAt ≤ x.createdAt) →
      List.Sorted newerFirst (unhideItem txOk reloadOk id w).1.mem.items) := by
  refine ⟨?_, ?_, ?_, ?_, ?_, ?_, ?_⟩
  · intro env incoming w hsd
    unfold importItems
    dsimp only
    repeat' split
    all_goals first
      | exact hsd
      | exact sorted_sortItems _
  · intro env clearOk incoming w hsd
    unfold overwriteWithItems
    dsimp only
    repeat' split
    all_goals first
      | exact hsd
      | exact sorted_sortItems _
  · intro txOk reloadOk id w hsd
    unfold deleteItem
    dsimp only
    repeat' split
    all_goals first
      | exact List.Pairwise.sublist (List.filter_sublist _) hsd
      | exact sorted_reconcile w reloadOk _ (by exact List.Pairwise.sublist (List.filter_sublist _) hsd)
  · intro txOk reloadOk id w hsd
    unfold hideItem
    dsimp only
    repeat' split
    all_goals first
      | exact hsd
      | exact List.Pairwise.sublist (List.filter_sublist _) hsd
      | exact sorted_reconcile w reloadOk _ (by exact List.Pairwise.sublist (List.filter_sublist _) hsd)
  · intro txOk reloadOk id u w l₁ x l₂ hsd hitems hx h₁ h₂
    have hfind : w.mem.items.find? (fun i => i.id == id) = some x := by
      rw [hitems]
      exact find_id_append_cons l₁ l₂ x id hx h₁
    have hmapeq : w.mem.items.map (fun i => i.createdAt)
        = (w.mem.items.map (fun i => if i.id == id then applyUpdates u x else i)).map
            (fun i => i.createdAt) := by
      rw [hitems, map_replace_single l₁ l₂ x (applyUpdates u x) id hx h₁ h₂]
      simp [List.map_append, applyUpdates]
    have hnext := sorted_of_map_createdAt_eq _ _ hmapeq hsd
    unfold updateItem
    simp only [hfind]
    repeat' split
    all_goals first
      | exact hnext
      | exact sorted_reconcile w reloadOk _ (by exact hnext)
  · intro now txOk d w hsd hle
    have hopt : List.Sorted newerFirst (draftToItem now d :: w.mem.items) := by
      rw [List.sorted_cons]
      exact ⟨fun b hb => hle b hb, hsd⟩
    unfold addItem
    dsimp only
    repeat' split
    all_goals first
      | exact hopt
      | exact List.Pairwise.sublist (List.filter_sublist _) hopt
  · intro txOk reloadOk id w x hsd hfind hle
    have hopt : List.Sorted newerFirst ({ x with isHidden := some false } :: w.mem.items) := by
      rw [List.sorted_cons]
      exact ⟨fun b hb => hle b hb, hsd⟩
    unfold unhideItem
    simp only [hfind]
    repeat' split
    all_goals first
      | exact hopt
      | exact sorted_reconcile w reloadOk _ (by exact hopt)

/-- Witness for C9: the preservation conjuncts at concrete worlds. -/
theorem C9_witness :
    List.Sorted newerFirst (deleteItem true true (str "a") worldA).1.mem.items ∧
    List.Sorted newerFirst (addItem 20 true draftB worldA).1.mem.items ∧
    List.Sorted newerFirst (importItems { now := 0, genId := fun k => natToStr k, host := fun _ => none, readOk := true, txOk := true } [] worldA).1.mem.items :=
  ⟨C9_sort_invariant.2.2.1 true true (str "a") worldA (by decide),
   C9_sort_invariant.2.2.2.2.2.1 20 true draftB worldA (by decide) (by decide),
   C9_sort_invariant.1 _ [] worldA (by decide)⟩

/-- Witness for C8: both cases at concrete worlds. -/
theorem C8_witness :
    updateItem true true (str "zz") nameUpdate worldA = (worldA, true) ∧
    (updateItem true true (str "a") nameUpdate worldA).1.mem.items
      = [] ++ applyUpdates nameUpdate itemA :: [] :=
  ⟨(C8_updateItem true (str "zz") nameUpdate worldA).1 (by decide) true,
   ((C8_updateItem true (str "a") nameUpdate worldA).2 [] itemA [] (by decide) (by decide)
     (by decide) (by decide)).1⟩

/-! ### Claim C2: id uniqueness across the two partitions -/

/-- Claim C2: the code cannot maintain the cross-partition id uniqueness the
spec states.  Evaluation at the failing input: importing a draft whose
explicit id "h" equals the id of a HIDDEN record is accepted (`importItems`
deduplicates ids against the public partition only), after which id "h"
exists in both partitions. -/
theorem C2_failing_eval :
    (importItems importEnvSimple [draftCollide] worldWithHidden).2
      = some { added := 1, skipped := 0 } ∧
    str "h" ∈ ((importItems importEnvSimple [draftCollide] worldWithHidden).1.mem.items.map
      (fun i => i.id)) ∧
    str "h" ∈ ((importItems importEnvSimple [draftCollide] worldWithHidden).1.mem.hiddenItems.map
      (fun i => i.id)) ∧
    str "h" ∈ ((importItems importEnvSimple [draftCollide] worldWithHidden).1.db.media.map
      (fun i => i.id)) ∧
    str "h" ∈ ((importItems importEnvSimple [draftCollide] worldWithHidden).1.db.hidden.map
      (fun i => i.id)) := by
  decide

/-! ### Claim C5: importItems counting and idempotence -/

theorem contains_eq_false (l : List Str) (a : Str) (h : a ∉ l) : l.contains a = false := by
  rw [Bool.eq_false_iff]
  intro hc
  exact h (List.elem_iff.mp hc)

theorem contains_eq_true (l : List Str) (a : Str) (h : a ∈ l) : l.contains a = true :=
  List.elem_iff.mpr h

theorem importStep_skip (env : ImportEnv) (acc : ImpAcc) (raw : ImportDraft)
    (h : (raw.url.getD []).isEmpty = true ∨ draftUrlKey raw ∈ acc.urls) :
    importStep env acc raw = acc := by
  unfold importStep
  rcases h with h | h
  · simp [h]
  · by_cases he : (raw.url.getD []).isEmpty = true
    · simp [he]
    · have hb : (raw.url.getD []).isEmpty = false := by
        cases hval : (raw.url.getD []).isEmpty
        · rfl
        · exact absurd hval he
      have hc : acc.urls.contains (urlKeyOf (raw.url.getD [])) = true :=
        contains_eq_true _ _ h
      simp [hb, hc]
      intro hnot
      exact absurd h hnot

theorem importStep_toAdd_le (env : ImportEnv) (acc : ImpAcc) (raw : ImportDraft) :
    (importStep env acc raw).toAdd.length ≤ acc.toAdd.length + 1 := by
  unfold importStep
  dsimp only
  split
  · exact Nat.le_succ _
  · split
    · exact Nat.le_succ _
    · simp

theorem import_fold_toAdd_le (env : ImportEnv) :
    ∀ (batch : List ImportDraft) (acc : ImpAcc),
      (batch.foldl (importStep env) acc).toAdd.length ≤ acc.toAdd.length + batch.length := by
  intro batch
  induction batch with
  | nil =>
    intro acc
    simp
  | cons d rest ih =>
    intro acc
    have h1 := ih (importStep env acc d)
    have h2 := importStep_toAdd_le env acc d
    simp only [List.foldl_cons, List.length_cons]
    omega

theorem storeAddAll_of_nodup : ∀ (l store : List MediaItem),
    (store.map (fun i => i.id) ++ l.map (fun i => i.id)).Nodup →
    storeAddAll store l = some (store ++ l) := by
  intro l
  induction l with
  | nil =>
    intro store _
    simp [storeAddAll]
  | cons i rest ih =>
    intro store h
    have hdisj : List.Disjoint (store.map fun i => i.id) ((i :: rest).map fun i => i.id) :=
      List.disjoint_of_nodup_append h
    have hkey : hasKey store i.id = false := by
      apply hasKey_eq_false
      intro a ha heq
      exact hdisj (List.mem_map_of_mem _ ha) (by simp [heq])
    have hnext : ((store ++ [i]).map (fun i => i.id) ++ rest.map (fun i => i.id)).Nodup := by
      have : (store ++ [i]).map (fun i => i.id) ++ rest.map (fun i => i.id)
          = store.map (fun i => i.id) ++ (i :: rest).map (fun i => i.id) := by
        simp
      rw [this]
      exact h
    unfold storeAddAll storeAdd
    rw [hkey]
    simpa [List.append_assoc] using ih (store ++ [i]) hnext

theorem importStep_accept (env : ImportEnv) (acc : ImpAcc) (raw : ImportDraft)
    (hne : (raw.url.getD []).isEmpty = false)
    (hkey : draftUrlKey raw ∉ acc.urls)
    (hfreshgen : ∀ k, acc.gen ≤ k → k < acc.gen + 2 → env.genId k ∉ acc.ids) :
    ∃ newId newGen,
      importStep env acc raw
        = { urls := acc.urls ++ [draftUrlKey raw]
            ids := acc.ids ++ [newId]
            toAdd := acc.toAdd ++ [importedItem env raw newId]
            gen := newGen } ∧
      acc.gen ≤ newGen ∧ newGen ≤ acc.gen + 2 ∧ newId ∉ acc.ids ∧
      ((∃ s, raw.id = some s ∧ newId = s) ∨
        ∃ j, acc.gen ≤ j ∧ j < newGen ∧ newId = env.genId j) := by
  have hgen0 : env.genId acc.gen ∉ acc.ids :=
    hfreshgen acc.gen (Nat.le_refl _) (by omega)
  have hcontains : acc.urls.contains (urlKeyOf (raw.url.getD [])) = false :=
    contains_eq_false _ _ hkey
  unfold importStep
  simp only [hne, Bool.false_eq_true, if_false, hcontains]
  rcases hid : raw.id with _ | s
  · refine ⟨env.genId acc.gen, acc.gen + 1, ?_, by omega, by omega, hgen0, ?_⟩
    · simp only [contains_eq_false _ _ hgen0, Bool.false_eq_true, if_false]
      rfl
    · exact Or.inr ⟨acc.gen, Nat.le_refl _, by omega, rfl⟩
  · by_cases htrim : (trimStr s).isEmpty = true
    · refine ⟨env.genId acc.gen, acc.gen + 1, ?_, by omega, by omega, hgen0, ?_⟩
      · simp only [htrim, if_true, contains_eq_false _ _ hgen0, Bool.false_eq_true, if_false]
        rfl
      · exact Or.inr ⟨acc.gen, Nat.le_refl _, by omega, rfl⟩
    · by_cases hs : s ∈ acc.ids
      · refine ⟨env.genId acc.gen, acc.gen + 1, ?_, by omega, by omega, hgen0, ?_⟩
        · simp only [htrim, Bool.false_eq_true, if_false, contains_eq_true _ _ hs, if_true]
          rfl
        · exact Or.inr ⟨acc.gen, Nat.le_refl _, by omega, rfl⟩
      · refine ⟨s, acc.gen, ?_, Nat.le_refl _, by omega, hs, Or.inl ⟨s, rfl, rfl⟩⟩
        simp only [htrim, Bool.false_eq_true, if_false, contains_eq_false _ _ hs]
        rfl

theorem nodup_middle_not_mem {α : Type} (l₁ l₂ : List α) (a : α)
    (h : (l₁ ++ a :: l₂).Nodup) : a ∉ l₁ := by
  intro ha
  exact (List.disjoint_of_nodup_append h) ha (List.mem_cons_self a l₂)

theorem nodup_append_singleton {α : Type} (l : List α) (a : α) (hl : l.Nodup) (ha : a ∉ l) :
    (l ++ [a]).Nodup := by
  rw [List.nodup_append]
  refine ⟨hl, List.nodup_singleton a, ?_⟩
  intro b hb hb1
  rw [List.mem_singleton] at hb1
  exact ha (hb1 ▸ hb)

theorem import_fold_inv (env : ImportEnv) (w : World) (incoming : List ImportDraft)
    (hurl : ∀ d ∈ incoming, (d.url.getD []).isEmpty = false)
    (hnodup : (incoming.map draftUrlKey).Nodup)
    (hnew : ∀ d ∈ incoming, draftUrlKey d ∉ w.db.media.map (fun i => urlKeyOf i.url))
    (hgeninj : ∀ j k, j < 2 * incoming.length → k < 2 * incoming.length →
      env.genId j = env.genId k → j = k)
    (hgendb : ∀ k, k < 2 * incoming.length → env.genId k ∉ w.db.media.map (fun i => i.id))
    (hgendraft : ∀ k, k < 2 * incoming.length → ∀ d ∈ incoming, ∀ s, d.id = some s →
      env.genId k ≠ s) :
    ∀ (rem processed : List ImportDraft) (acc : ImpAcc),
      incoming = processed ++ rem →
      acc.urls = (w.db.media.map fun i => urlKeyOf i.url) ++ acc.toAdd.map (fun i => urlKeyOf i.url) →
      acc.toAdd.map (fun i => urlKeyOf i.url) = processed.map draftUrlKey →
      acc.toAdd.length = processed.length →
      acc.ids = (w.db.media.map fun i => i.id) ++ acc.toAdd.map (fun i => i.id) →
      acc.ids.Nodup →
      acc.gen ≤ 2 * processed.length →
      (∀ s ∈ acc.toAdd.map (fun i => i.id),
        (∃ d ∈ incoming, d.id = some s) ∨ ∃ j, j < acc.gen ∧ s = env.genId j) →
      ((rem.foldl (importStep env) acc).urls
          = (w.db.media.map fun i => urlKeyOf i.url)
            ++ (rem.foldl (importStep env) acc).toAdd.map (fun i => urlKeyOf i.url) ∧
        (rem.foldl (importStep env) acc).toAdd.map (fun i => urlKeyOf i.url)
          = (processed ++ rem).map draftUrlKey ∧
        (rem.foldl (importStep env) acc).toAdd.length = (processed ++ rem).length ∧
        (rem.foldl (importStep env) acc).ids
          = (w.db.media.map fun i => i.id)
            ++ (rem.foldl (importStep env) acc).toAdd.map (fun i => i.id) ∧
        (rem.foldl (importStep env) acc).ids.Nodup ∧
        (rem.foldl (importStep env) acc).gen ≤ 2 * (processed ++ rem).length ∧
        (∀ s ∈ (rem.foldl (importStep env) acc).toAdd.map (fun i => i.id),
          (∃ d ∈ incoming, d.id = some s)
            ∨ ∃ j, j < (rem.foldl (importStep env) acc).gen ∧ s = env.genId j)) := by
  intro rem
  induction rem with
  | nil =>
    intro processed acc hinc h1 h2 h3 h4 h5 h6 h7
    simp only [List.foldl_nil, List.append_nil]
    exact ⟨h1, h2, h3, h4, h5, h6, h7⟩
  | cons d rest ih =>
    intro processed acc hinc h1 h2 h3 h4 h5 h6 h7
    have hdmem : d ∈ incoming := by
      rw [hinc]
      exact List.mem_append_right processed (List.mem_cons_self d rest)
    have hlen : incoming.length = processed.length + rest.length + 1 := by
      rw [hinc]
      simp only [List.length_append, List.length_cons]
      omega
    have hgenlt : acc.gen + 2 ≤ 2 * incoming.length := by omega
    -- the key of d is not yet present
    have hkeydb : draftUrlKey d ∉ w.db.media.map (fun i => urlKeyOf i.url) := hnew d hdmem
    have hkeyproc : draftUrlKey d ∉ processed.map draftUrlKey := by
      have hmap : incoming.map draftUrlKey
          = processed.map draftUrlKey ++ draftUrlKey d :: rest.map draftUrlKey := by
        rw [hinc]
        simp
      exact nodup_middle_not_mem _ _ _ (by rw [hmap] at hnodup; exact hnodup)
    have hkey : draftUrlKey d ∉ acc.urls := by
      rw [h1, h2]
      intro hmem
      rcases List.mem_append.mp hmem with hdb | hproc
      · exact hkeydb hdb
      · exact hkeyproc hproc
    -- freshly generated ids are not yet present
    have hfreshgen : ∀ k, acc.gen ≤ k → k < acc.gen + 2 → env.genId k ∉ acc.ids := by
      intro k hk1 hk2 hmem
      have hk3 : k < 2 * incoming.length := by omega
      rw [h4] at hmem
      rcases List.mem_append.mp hmem with hdb | hta
      · exact hgendb k hk3 hdb
      · rcases h7 _ hta with ⟨d2, hd2, hs⟩ | ⟨j, hj, hs⟩
        · exact hgendraft k hk3 d2 hd2 _ hs rfl
        · have hj2 : j < 2 * incoming.length := by omega
          have : j = k := hgeninj j k hj2 hk3 hs.symm
          omega
    obtain ⟨newId, newGen, hstep, hg1, hg2, hnewid, hprov⟩ :=
      importStep_accept env acc d (hurl d hdmem) hkey hfreshgen
    rw [List.foldl_cons, hstep]
    have happ : processed ++ d :: rest = (processed ++ [d]) ++ rest := by simp
    rw [happ]
    have hitemid : (importedItem env d newId).id = newId := rfl
    have hitemurl : urlKeyOf (importedItem env d newId).url = draftUrlKey d := rfl
    apply ih (processed ++ [d])
    · rw [hinc, happ]
    · simp only [List.map_append, List.map_cons, List.map_nil, hitemurl]
      rw [h1]
      simp
    · simp only [List.map_append, List.map_cons, List.map_nil, hitemurl]
      rw [h2]
    · simp only [List.length_append, List.length_cons, List.length_nil]
      omega
    · simp only [List.map_append, List.map_cons, List.map_nil, hitemid]
      rw [h4]
      simp
    · exact nodup_append_singleton acc.ids newId h5 hnewid
    · simp only [List.length_append, List.length_cons, List.length_nil]
      omega
    · intro s hs
      dsimp only at hs ⊢
      simp only [List.map_append, List.map_cons, List.map_nil, List.mem_append,
        List.mem_singleton, hitemid] at hs
      rcases hs with hs | hs
      · rcases h7 s (by simpa using hs) with hleft | ⟨j, hj, he⟩
        · exact Or.inl hleft
        · exact Or.inr ⟨j, by omega, he⟩
      · rcases hprov with ⟨s2, hds, hne2⟩ | ⟨j, hj1, hj2, he⟩
        · exact Or.inl ⟨d, hdmem, by rw [hds, ← hne2, hs]⟩
        · exact Or.inr ⟨j, by omega, by rw [hs, he]⟩

theorem import_fold_skip (env : ImportEnv) :
    ∀ (batch : List ImportDraft) (acc : ImpAcc),
      (∀ d ∈ batch, draftUrlKey d ∈ acc.urls) →
      batch.foldl (importStep env) acc = acc := by
  intro batch
  induction batch with
  | nil =>
    intro acc _
    rfl
  | cons d rest ih =>
    intro acc h
    rw [List.foldl_cons, importStep_skip env acc d (Or.inr (h d (List.mem_cons_self d rest)))]
    exact ih acc fun d2 hd2 => h d2 (List.mem_cons_of_mem d hd2)

/-- Claim C5: on any successful return, `added + skipped` equals the batch
length; and for a batch of drafts with non-empty, pairwise-distinct (after
trimming and lower-casing), not-yet-stored URLs — with the id generator fresh
— the first `importItems` returns `added = N, skipped = 0` and re-importing
the very same batch returns `added = 0, skipped = N` (duplicates keyed on the
normalized URLs of the now-stored records). -/
theorem C5_importItems_idempotent :
    (∀ env incoming w c, (importItems env incoming w).2 = some c →
      c.added + c.skipped = incoming.length) ∧
    (∀ env env2 w incoming, ImportBatchFresh env w incoming →
      env.readOk = true → env.txOk = true → env2.readOk = true →
      (importItems env incoming w).2 = some { added := incoming.length, skipped := 0 } ∧
      (importItems env2 incoming (importItems env incoming w).1).2
        = some { added := 0, skipped := incoming.length }) := by
  constructor
  · intro env incoming w c hres
    unfold importItems at hres
    split at hres
    · next hemp =>
      have hc : ({ added := 0, skipped := 0 } : ImportCounts) = c := by
        simpa using hres
      rw [← hc, List.isEmpty_iff.mp hemp]
      rfl
    split at hres
    · exact absurd hres (by simp)
    dsimp only at hres
    split at hres
    · have hc : ({ added := 0, skipped := incoming.length } : ImportCounts) = c := by
        simpa using hres
      rw [← hc]
      simp
    split at hres
    · exact absurd hres (by simp)
    · next media1 heq =>
      have hle := import_fold_toAdd_le env incoming (impAccInit w.db.media)
      have hc : ({ added := (incoming.foldl (importStep env) (impAccInit w.db.media)).toAdd.length,
                   skipped := incoming.length
                     - (incoming.foldl (importStep env) (impAccInit w.db.media)).toAdd.length }
                  : ImportCounts) = c := by
        simpa using hres
      rw [← hc]
      simp only [impAccInit, List.length_nil] at hle ⊢
      omega
  · intro env env2 w incoming hfresh hread htx hread2
    obtain ⟨hurl, hnodup, hnew, hdbids, hgeninj, hgendb, hgendraft⟩ := hfresh
    by_cases hemp : incoming.isEmpty = true
    · have hnil : incoming = [] := List.isEmpty_iff.mp hemp
      subst hnil
      exact ⟨rfl, rfl⟩
    · have hempF : incoming.isEmpty = false := by simpa using hemp
      obtain ⟨hF1, hF2, hF3, hF4, hF5, hF6, hF7⟩ :=
        import_fold_inv env w incoming hurl hnodup hnew hgeninj hgendb hgendraft
          incoming [] (impAccInit w.db.media) (by simp) (by simp [impAccInit])
          (by simp [impAccInit]) (by simp [impAccInit]) (by simp [impAccInit])
          (by simpa [impAccInit] using hdbids) (by simp [impAccInit])
          (by intro s hs; simp [impAccInit] at hs)
      rw [List.nil_append] at hF2 hF3
      have hlenpos : incoming.length ≠ 0 := by
        intro h0
        exact hemp (by rw [List.isEmpty_iff, ← List.length_eq_zero]; exact h0)
      have hFne : (incoming.foldl (importStep env) (impAccInit w.db.media)).toAdd.isEmpty
          = false := by
        rcases hta : (incoming.foldl (importStep env) (impAccInit w.db.media)).toAdd with _ | _
        · rw [hta] at hF3
          simp at hF3
          exact absurd hF3.symm hlenpos
        · rfl
      rw [hF4] at hF5
      have hadd := storeAddAll_of_nodup
        (incoming.foldl (importStep env) (impAccInit w.db.media)).toAdd w.db.media hF5
      have hrun1 : importItems env incoming w
          = ({ w with
                mem := setItems w.mem (sortItems
                  ((incoming.foldl (importStep env) (impAccInit w.db.media)).toAdd
                    ++ w.mem.items))
                db := { w.db with media := w.db.media
                  ++ (incoming.foldl (importStep env) (impAccInit w.db.media)).toAdd } },
             some { added :=
                      (incoming.foldl (importStep env) (impAccInit w.db.media)).toAdd.length,
                    skipped := incoming.length
                      - (incoming.foldl (importStep env) (impAccInit w.db.media)).toAdd.length })
          := by
        unfold importItems
        simp [hempF, hread, hFne, htx, hadd]
      constructor
      · rw [hrun1]
        simp only [hF3, Nat.sub_self]
      · rw [hrun1]
        have himp : ∀ media : List MediaItem, (impAccInit media).urls
            = media.map (fun i => urlKeyOf i.url) := fun _ => rfl
        have hskipall : ∀ d ∈ incoming,
            draftUrlKey d ∈ (impAccInit (w.db.media
              ++ (incoming.foldl (importStep env) (impAccInit w.db.media)).toAdd)).urls := by
          intro d hd
          rw [himp]
          simp only [List.map_append, List.mem_append]
          right
          rw [hF2]
          exact List.mem_map_of_mem draftUrlKey hd
        have hfold2 := import_fold_skip env2 incoming
          (impAccInit (w.db.media
            ++ (incoming.foldl (importStep env) (impAccInit w.db.media)).toAdd)) hskipall
        unfold importItems
        rw [if_neg (by simp [hempF]), if_neg (by simp [hread2])]
        dsimp only
        rw [hfold2]
        rfl

/-- Witness for C5: a one-draft batch against the empty store, imported twice. -/
theorem C5_witness :
    (importItems importEnvSimple [draftNew] emptyWorld).2
      = some { added := 1, skipped := 0 } ∧
    (importItems importEnvSimple [draftNew]
        (importItems importEnvSimple [draftNew] emptyWorld).1).2
      = some { added := 0, skipped := 1 } :=
  C5_importItems_idempotent.2 importEnvSimple importEnvSimple emptyWorld [draftNew]
    (by refine ⟨by decide, by decide, by decide, by decide, ?_, by decide, by decide⟩
        intro j k hj hk
        have hj2 : j < 2 := by simpa using hj
        have hk2 : k < 2 := by simpa using hk
        interval_cases j <;> interval_cases k <;> decide)
    rfl rfl rfl

end Previewz
